import Mathlib

/-
Verification development for the reverse-tunnel HTTP proxy
(NarayanNarayan/reverseProxy).

The repository contains two cooperating variants of the same design:
a Node implementation (src/server.js, src/client.js, the MessageBuffer
class bundled with src/Logger.js, src/config.js) and a Go implementation
(src/unnamed/part_001 main.go, src/unnamed/part_002 config.go +
messagebuffer.go + server.go, src/go-reverse-proxy/client.go), plus a
second Node client variant (src/unnamed/part_000).

Below, every definition is a shallow embedding of one function of those
sources; the source file and lines are cited in each doc comment.
Buffers are lists of byte values (`List Nat`, each element the value of
one byte); JavaScript objects with possibly-absent properties are
embedded as structures with `Option` fields (reading an absent property
yields `undefined`, embedded as `none`); the Go type assertion
`x.(string)`, which panics when the value is absent or not a string, is
embedded as an explicit `panicked` outcome.
-/

namespace ReverseProxy

/-! ## Frame codec

`MessageBuffer` from the Node sources (src/Logger.js:115-166) and the Go
sources (src/unnamed/part_002, `MessageBuffer`).  Both implement the same
algorithm: `produce` prepends a 4-byte big-endian length, `consume`
appends incoming bytes to an internal buffer and repeatedly extracts
complete frames, delivering each payload to the sink. -/

/-- The 4-byte big-endian encoding of `n`, as written by
`sizeBuffer.writeUInt32BE(dataBuffer.length, 0)` (src/Logger.js:159) and
`binary.BigEndian.PutUint32` (src/unnamed/part_002, `Produce`). -/
def be4 (n : Nat) : List Nat :=
  [n / 2 ^ 24 % 256, n / 2 ^ 16 % 256, n / 2 ^ 8 % 256, n % 256]

/-- Reading the 4-byte big-endian length from the front of the buffer:
`this.buffer.readUInt32BE(0)` (src/Logger.js:131) /
`binary.BigEndian.Uint32(lengthBytes)` (src/unnamed/part_002, `Consume`).
Only called when at least 4 bytes are buffered; the catch-all arm is
never reached on those inputs. -/
def readBE4 : List Nat → Nat
  | b0 :: b1 :: b2 :: b3 :: _ => ((b0 * 256 + b1) * 256 + b2) * 256 + b3
  | _ => 0

/-- `MessageBuffer.produce` (src/Logger.js:152-163) / `Produce`
(src/unnamed/part_002): length prefix followed by the payload. -/
def produce (data : List Nat) : List Nat :=
  be4 data.length ++ data

/-- The extraction loop of `MessageBuffer.consume` (src/Logger.js:129-149)
/ `Consume` (src/unnamed/part_002): while at least 4 bytes are buffered
and the buffer holds the announced `size + 4` bytes, deliver the payload
`buffer[4 : size+4]` and continue on `buffer[size+4 :]`; otherwise keep
the buffer and wait for more data.  Each iteration consumes at least 4
bytes, so the buffer length is enough fuel; `drain` below instantiates
the fuel, and `drainAux_congr` shows the result is fuel-independent. -/
def drainAux : Nat → List Nat → List Nat × List (List Nat)
  | 0, buf => (buf, [])
  | fuel + 1, buf =>
    if 4 ≤ buf.length then
      let size := readBE4 buf
      if size + 4 ≤ buf.length then
        let r := drainAux fuel (buf.drop (size + 4))
        (r.1, (buf.drop 4).take size :: r.2)
      else (buf, [])
    else (buf, [])

/-- The buffer-draining loop of `consume`, returning the remaining buffer
and the payloads delivered to the sink, in delivery order. -/
def drain (buf : List Nat) : List Nat × List (List Nat) :=
  drainAux buf.length buf

/-- `MessageBuffer.consume` (src/Logger.js:125-150) / `Consume`
(src/unnamed/part_002): append the arriving chunk to the buffered bytes,
then run the extraction loop.  Returns the new buffer state and the
payloads handed to the `onData` sink, in order. -/
def consume (st data : List Nat) : List Nat × List (List Nat) :=
  drain (st ++ data)

/-- Feeding a sequence of chunks into one decoder, accumulating the
payloads delivered to the sink across all calls. -/
def feedAll : List Nat → List (List Nat) → List Nat × List (List Nat)
  | st, [] => (st, [])
  | st, c :: cs =>
    let r := consume st c
    let rest := feedAll r.1 cs
    (rest.1, r.2 ++ rest.2)

theorem drainAux_congr :
    ∀ (f1 f2 : Nat) (b : List Nat), b.length ≤ f1 → b.length ≤ f2 →
      drainAux f1 b = drainAux f2 b := by
  intro f1
  induction f1 with
  | zero =>
    intro f2 b h1 _
    have hb : b = [] := List.eq_nil_of_length_eq_zero (Nat.le_zero.mp h1)
    subst hb
    cases f2 <;> simp [drainAux]
  | succ k ih =>
    intro f2 b h1 h2
    cases f2 with
    | zero =>
      have hb : b = [] := List.eq_nil_of_length_eq_zero (Nat.le_zero.mp h2)
      subst hb
      simp [drainAux]
    | succ g =>
      simp only [drainAux]
      by_cases h4 : 4 ≤ b.length
      · simp only [h4, if_true]
        by_cases hsz : readBE4 b + 4 ≤ b.length
        · simp only [hsz, if_true]
          have hlen : (b.drop (readBE4 b + 4)).length = b.length - (readBE4 b + 4) :=
            List.length_drop _ _
          have hk : (b.drop (readBE4 b + 4)).length ≤ k := by omega
          have hg : (b.drop (readBE4 b + 4)).length ≤ g := by omega
          rw [ih g _ hk hg]
        · simp [hsz]
      · simp [h4]

theorem drain_wait (b : List Nat) (h : b.length < 4 ∨ b.length < readBE4 b + 4) :
    drain b = (b, []) := by
  unfold drain
  cases hb : b.length with
  | zero => simp [drainAux]
  | succ k =>
    simp only [drainAux]
    by_cases h4 : 4 ≤ b.length
    · have hsz : ¬ (readBE4 b + 4 ≤ b.length) := by omega
      simp [h4, hsz]
    · simp only [h4, if_false]

theorem drain_step (b : List Nat) (h4 : 4 ≤ b.length)
    (hsz : readBE4 b + 4 ≤ b.length) :
    drain b = ((drain (b.drop (readBE4 b + 4))).1,
               (b.drop 4).take (readBE4 b) :: (drain (b.drop (readBE4 b + 4))).2) := by
  unfold drain
  cases hb : b.length with
  | zero => omega
  | succ k =>
    simp only [drainAux]
    have hlen : (b.drop (readBE4 b + 4)).length = b.length - (readBE4 b + 4) :=
      List.length_drop _ _
    rw [drainAux_congr k (b.drop (readBE4 b + 4)).length _ (by omega) (by omega)]
    simp [h4, hsz]

theorem readBE4_append (b d : List Nat) (h : 4 ≤ b.length) :
    readBE4 (b ++ d) = readBE4 b := by
  match b, h with
  | b0 :: b1 :: b2 :: b3 :: t, _ => rfl

theorem readBE4_be4 (n : Nat) (r : List Nat) (h : n < 2 ^ 32) :
    readBE4 (be4 n ++ r) = n := by
  simp only [be4, readBE4, List.cons_append]
  omega

theorem be4_length (n : Nat) : (be4 n).length = 4 := rfl

theorem drain_append (n : Nat) :
    ∀ (b d : List Nat), b.length ≤ n →
      drain (b ++ d) = ((drain ((drain b).1 ++ d)).1,
                        (drain b).2 ++ (drain ((drain b).1 ++ d)).2) := by
  induction n with
  | zero =>
    intro b d h1
    have hb : b = [] := List.eq_nil_of_length_eq_zero (Nat.le_zero.mp h1)
    subst hb
    rw [drain_wait [] (by simp), List.nil_append]
    simp
  | succ k ih =>
    intro b d h1
    by_cases h4 : 4 ≤ b.length
    · by_cases hsz : readBE4 b + 4 ≤ b.length
      · have hread : readBE4 (b ++ d) = readBE4 b := readBE4_append b d h4
        have h4' : 4 ≤ (b ++ d).length := by
          rw [List.length_append]; omega
        have hsz' : readBE4 (b ++ d) + 4 ≤ (b ++ d).length := by
          rw [List.length_append, hread]; omega
        rw [drain_step (b ++ d) h4' hsz', drain_step b h4 hsz]
        have hdrop4 : (b ++ d).drop 4 = b.drop 4 ++ d :=
          List.drop_append_of_le_length h4
        have htake : (b.drop 4 ++ d).take (readBE4 b) = (b.drop 4).take (readBE4 b) := by
          apply List.take_append_of_le_length
          rw [List.length_drop]; omega
        have hdrop : (b ++ d).drop (readBE4 b + 4) = b.drop (readBE4 b + 4) ++ d :=
          List.drop_append_of_le_length hsz
        have hrest : (b.drop (readBE4 b + 4)).length ≤ k := by
          rw [List.length_drop]; omega
        rw [hread, hdrop4, htake, hdrop, ih (b.drop (readBE4 b + 4)) d hrest]
        simp
      · rw [drain_wait b (Or.inr (by omega))]
        simp
    · rw [drain_wait b (Or.inl (by omega))]
      simp

theorem drain_drained (n : Nat) :
    ∀ b : List Nat, b.length ≤ n → drain (drain b).1 = ((drain b).1, []) := by
  induction n with
  | zero =>
    intro b h1
    have hb : b = [] := List.eq_nil_of_length_eq_zero (Nat.le_zero.mp h1)
    subst hb
    rw [drain_wait [] (by simp)]
    exact drain_wait [] (by simp)
  | succ k ih =>
    intro b h1
    by_cases h4 : 4 ≤ b.length
    · by_cases hsz : readBE4 b + 4 ≤ b.length
      · rw [drain_step b h4 hsz]
        exact ih (b.drop (readBE4 b + 4)) (by rw [List.length_drop]; omega)
      · rw [drain_wait b (Or.inr (by omega))]
        exact drain_wait b (Or.inr (by omega))
    · rw [drain_wait b (Or.inl (by omega))]
      exact drain_wait b (Or.inl (by omega))

theorem drain_encodeAll (ps : List (List Nat)) (h : ∀ p ∈ ps, p.length < 2 ^ 32) :
    drain (ps.map produce).flatten = ([], ps) := by
  induction ps with
  | nil =>
    simp only [List.map_nil, List.flatten]
    exact drain_wait [] (by simp)
  | cons p ps ih =>
    have hp : p.length < 2 ^ 32 := h p (List.mem_cons_self p ps)
    simp only [List.map_cons, List.flatten_cons, produce]
    have hread : readBE4 (be4 p.length ++ (p ++ (ps.map produce).flatten)) = p.length :=
      readBE4_be4 p.length _ hp
    have hlen : (be4 p.length ++ (p ++ (ps.map produce).flatten)).length
        = 4 + p.length + (ps.map produce).flatten.length := by
      simp only [List.length_append, be4_length]
      omega
    rw [List.append_assoc]
    rw [drain_step _ (by omega) (by omega)]
    have hdrop4 : (be4 p.length ++ (p ++ (ps.map produce).flatten)).drop 4
        = p ++ (ps.map produce).flatten := by
      have := List.drop_left (be4 p.length) (p ++ (ps.map produce).flatten)
      rwa [be4_length] at this
    have htake : (p ++ (ps.map produce).flatten).take p.length = p :=
      List.take_left p _
    have hdrop : (be4 p.length ++ (p ++ (ps.map produce).flatten)).drop (p.length + 4)
        = (ps.map produce).flatten := by
      rw [← List.append_assoc]
      have := List.drop_left (be4 p.length ++ p) (ps.map produce).flatten
      have hl : (be4 p.length ++ p).length = p.length + 4 := by
        rw [List.length_append, be4_length]; omega
      rwa [hl] at this
    rw [hread, hdrop4, htake, hdrop,
        ih (fun q hq => h q (List.mem_cons_of_mem p hq))]

theorem feedAll_eq_drain :
    ∀ (chunks : List (List Nat)) (st : List Nat), drain st = (st, []) →
      feedAll st chunks = drain (st ++ chunks.flatten) := by
  intro chunks
  induction chunks with
  | nil =>
    intro st hst
    simp only [feedAll, List.flatten_nil, List.append_nil]
    exact hst.symm
  | cons c cs ih =>
    intro st hst
    simp only [feedAll, consume, List.flatten_cons]
    have hassoc : st ++ (c ++ cs.flatten) = (st ++ c) ++ cs.flatten := by
      rw [List.append_assoc]
    rw [hassoc, drain_append (st ++ c).length (st ++ c) cs.flatten (Nat.le_refl _)]
    have hdr : drain (drain (st ++ c)).1 = ((drain (st ++ c)).1, []) :=
      drain_drained (st ++ c).length (st ++ c) (Nat.le_refl _)
    rw [ih (drain (st ++ c)).1 hdr]

/-- The configured decoder maximum from the specification (`max_frame_bytes`,
default 16 MiB).  The source code itself contains no such constant; it is
used here only to state length bounds the claims quantify over. -/
def maxFrameBytes : Nat := 16 * 1024 * 1024

/-- C6: frame codec round-trip with arbitrary fragmentation.  For every
sequence `ps` of payloads each of length at most `maxFrameBytes`, encoding
each with `produce`, concatenating, splitting the concatenation into
arbitrary non-empty chunks and feeding the chunks in order to `consume`
(starting from the empty buffer) delivers exactly the original payload
sequence to the sink, each payload once, in order, leaving an empty
buffer.  Instantiated with `ps = [P]` and a single chunk this gives
`decode(encode(P)) = [P]`. -/
theorem frame_roundtrip_fragmented (ps : List (List Nat)) (chunks : List (List Nat))
    (hlen : ∀ p ∈ ps, p.length ≤ maxFrameBytes)
    (hne : ∀ c ∈ chunks, c ≠ [])
    (hjoin : chunks.flatten = (ps.map produce).flatten) :
    feedAll [] chunks = ([], ps) := by
  have hinit : drain ([] : List Nat) = ([], []) := drain_wait [] (by simp)
  rw [feedAll_eq_drain chunks [] hinit, List.nil_append, hjoin]
  exact drain_encodeAll ps (fun p hp => by
    have := hlen p hp
    simp only [maxFrameBytes] at this
    omega)

theorem frame_roundtrip_fragmented_witness :
    feedAll [] [[0], [0, 0, 3, 1], [2, 3, 0, 0], [0, 1, 9]] = ([], [[1, 2, 3], [9]]) :=
  frame_roundtrip_fragmented [[1, 2, 3], [9]] [[0], [0, 0, 3, 1], [2, 3, 0, 0], [0, 1, 9]]
    (by decide) (by decide) (by decide)

/-! ## Node broker (src/server.js) and Node agent (src/client.js)

`ProxyServer` keeps an insertion-ordered `Set` of connected agent sockets
(`this.clients`), a `Map` of pending requests keyed by the minted
`requestId` string (`this.pendingRequests`), and writes HTTP responses
through stored responder handles.  We embed the insertion-ordered set as
a list of agent ids, the map as an association list, and a responder
write as a record `(responder, statusCode, body)` appended to a log. -/

/-- One entry of `this.pendingRequests`.  `handleRequest` stores the
object literal `{ req, res }` (src/server.js:140): it has **no**
`clientId` property, yet the disconnect sweep reads `request.clientId`
(src/server.js:198,211).  Reading an absent JavaScript property yields
`undefined`, so the property is embedded as an `Option String` that is
`none` at creation. -/
structure NodePending where
  res : Nat
  clientId : Option String
deriving DecidableEq

/-- The state of the Node broker that the claims are about. -/
structure NodeState where
  clients : List String
  pending : List (String × NodePending)
  writes : List (Nat × Nat × String)
  warns : Nat
deriving DecidableEq

/-- The `RequestEnvelope` the broker frames to the agent
(src/server.js:150-158); `body` and header marshalling are elided as the
correlation claims do not touch them. -/
structure ReqEnvelope where
  clientId : String
  requestId : String
  method : String
  url : String
deriving DecidableEq

/-- A parsed `ResponseEnvelope` as the broker's sink sees it
(src/server.js:50): the result of `JSON.parse`, whose `clientId` and
`requestId` properties may be absent (`undefined`). -/
structure RespEnvelope where
  clientId : Option String
  requestId : Option String
  statusCode : Nat
  body : Option String
deriving DecidableEq

/-- `ProxyServer.findClient` (src/server.js:88-95): scan the connected
clients for one whose id strictly equals the envelope's `clientId`; an
absent `clientId` (`undefined`) equals no string id. -/
def findClient (clients : List String) (cid : Option String) : Option String :=
  clients.find? (fun c => some c == cid)

/-- `this.pendingRequests.get(response.requestId)` (src/server.js:60).
The map's keys are the minted requestId strings, so `get(undefined)`
finds nothing. -/
def lookupPending (m : List (String × NodePending)) (k : Option String) :
    Option NodePending :=
  match k with
  | none => none
  | some s => (m.find? (fun e => e.1 == s)).map (fun e => e.2)

/-- `this.pendingRequests.delete(requestId)` (src/server.js:69). -/
def deletePending (m : List (String × NodePending)) (s : String) :
    List (String × NodePending) :=
  m.filter (fun e => !(e.1 == s))

/-- The broker's tunnel-sink callback (src/server.js:48-85): parse the
response, look up the sending client by `clientId`; if found, look up
the pending request by `requestId`; on a hit write status and body to
the stored responder and delete the entry; on a miss log the
`No matching request found` warning and discard.  If `findClient` fails
the envelope is silently dropped. -/
def processResponse (st : NodeState) (r : RespEnvelope) : NodeState :=
  match findClient st.clients r.clientId with
  | none => st
  | some _ =>
    match r.requestId with
    | none =>
      match lookupPending st.pending none with
      | some _ => st
      | none => { st with warns := st.warns + 1 }
    | some rid =>
      match lookupPending st.pending (some rid) with
      | some entry =>
        { st with
          writes := st.writes ++ [(entry.res, r.statusCode, r.body.getD "")],
          pending := deletePending st.pending rid }
      | none => { st with warns := st.warns + 1 }

/-- `ProxyServer.handleRequest` (src/server.js:125-182): with no clients
respond 503 `No clients available`; otherwise dispatch to
`Array.from(this.clients)[0]`, store `{ req, res }` under the minted
`requestId` (passed in for `Math.random().toString(36).substring(7)`),
and frame a `RequestEnvelope` to that client.  Body streaming and the
`aborted` cleanup are elided. -/
def node_handleRequest (st : NodeState) (rid : String) (res : Nat)
    (method url : String) : NodeState × Option ReqEnvelope :=
  match st.clients.head? with
  | none =>
    ({ st with writes := st.writes ++ [(res, 503, "No clients available")] }, none)
  | some c =>
    ({ st with pending := st.pending ++ [(rid, { res := res, clientId := none })] },
     some { clientId := c, requestId := rid, method := method, url := url })

/-- The `socket.on('end')` handler (src/server.js:195-206): sweep
`pendingRequests` for entries whose `clientId` equals the disconnected
socket's id, answer each with 503 `Client disconnected`, delete them,
then remove the socket from the client set. -/
def node_socketEnd (st : NodeState) (cid : String) : NodeState :=
  { clients := st.clients.erase cid,
    pending := st.pending.filter (fun e => !(e.2.clientId == some cid)),
    writes := st.writes ++
      (st.pending.filter (fun e => e.2.clientId == some cid)).map
        (fun e => (e.2.res, 503, "Client disconnected")),
    warns := st.warns }

/-- The `socket.on('error')` handler (src/server.js:208-222): identical
sweep with body `Client error`. -/
def node_socketError (st : NodeState) (cid : String) : NodeState :=
  { clients := st.clients.erase cid,
    pending := st.pending.filter (fun e => !(e.2.clientId == some cid)),
    writes := st.writes ++
      (st.pending.filter (fun e => e.2.clientId == some cid)).map
        (fun e => (e.2.res, 503, "Client error")),
    warns := st.warns }

/-- The response construction of the Node agent src/client.js:93-99 (and
the error response, src/client.js:107-113): the object literal carries
`type`, `clientId`, `statusCode`, `headers` and `body` — it has **no**
`requestId` property. -/
def clientJs_buildResponse (req : ReqEnvelope) (status : Nat) (body : String) :
    RespEnvelope :=
  { clientId := some req.clientId, requestId := none,
    statusCode := status, body := some body }

/-- The response construction of the other Node agent variant,
src/unnamed/part_000 (`responseData`): it carries
`requestId: requestData.requestId`. -/
def clientUnnamed_buildResponse (req : ReqEnvelope) (status : Nat) (body : String) :
    RespEnvelope :=
  { clientId := some req.clientId, requestId := some req.requestId,
    statusCode := status, body := some body }

/-- C1 (code bug): the claim fails on src/client.js.  The broker dispatches
a `RequestEnvelope` carrying `requestId = "r1"` (src/server.js:150-158)
and correlates arriving responses by `response.requestId`
(src/server.js:60), but the agent's response construction
(src/client.js:93-99) omits the `requestId` property, so the lookup
misses, the broker logs `No matching request found` and discards the
response: the pending entry stays and the caller's responder is never
written.  The last conjunct shows the repository's other Node agent
variant (src/unnamed/part_000), which does echo `requestId`, resolves
the very same pending request — the omission in src/client.js is the
slip. -/
theorem clientJs_response_never_resolves_pending :
    (node_handleRequest ⟨["c1"], [], [], 0⟩ "r1" 0 "GET" "/a").2
      = some { clientId := "c1", requestId := "r1", method := "GET", url := "/a" } ∧
    (clientJs_buildResponse
        { clientId := "c1", requestId := "r1", method := "GET", url := "/a" }
        200 "ok").requestId = none ∧
    processResponse (node_handleRequest ⟨["c1"], [], [], 0⟩ "r1" 0 "GET" "/a").1
        (clientJs_buildResponse
          { clientId := "c1", requestId := "r1", method := "GET", url := "/a" }
          200 "ok")
      = { clients := ["c1"], pending := [("r1", ⟨0, none⟩)], writes := [], warns := 1 } ∧
    processResponse (node_handleRequest ⟨["c1"], [], [], 0⟩ "r1" 0 "GET" "/a").1
        (clientUnnamed_buildResponse
          { clientId := "c1", requestId := "r1", method := "GET", url := "/a" }
          200 "ok")
      = { clients := ["c1"], pending := [], writes := [(0, 200, "ok")], warns := 0 } := by
  decide

/-- Replaying a list of HTTP dispatches `(requestId, responder)` against a
broker that starts with connected clients `cs` and no pending requests
(src/server.js:125-182 applied repeatedly). -/
def node_dispatchAll (cs : List String) (reqs : List (String × Nat)) : NodeState :=
  reqs.foldl (fun s p => (node_handleRequest s p.1 p.2 "GET" "/").1)
    { clients := cs, pending := [], writes := [], warns := 0 }

theorem dispatch_keeps_no_clientId (reqs : List (String × Nat)) :
    ∀ st : NodeState, (∀ e ∈ st.pending, e.2.clientId = none) →
      ∀ e ∈ (reqs.foldl (fun s p => (node_handleRequest s p.1 p.2 "GET" "/").1) st).pending,
        e.2.clientId = none := by
  induction reqs with
  | nil =>
    intro st h
    simpa using h
  | cons q qs ih =>
    intro st h
    simp only [List.foldl_cons]
    apply ih
    intro e he
    unfold node_handleRequest at he
    cases hh : st.clients.head? with
    | none =>
      rw [hh] at he
      exact h e he
    | some c =>
      rw [hh] at he
      simp only [List.mem_append, List.mem_singleton] at he
      rcases he with he | he
      · exact h e he
      · rw [he]

theorem pending_sweep_noop (st : NodeState) (cid : String)
    (h : ∀ e ∈ st.pending, e.2.clientId = none) :
    st.pending.filter (fun e => !(e.2.clientId == some cid)) = st.pending ∧
    st.pending.filter (fun e => e.2.clientId == some cid) = [] := by
  constructor
  · apply List.filter_eq_self.mpr
    intro e he
    rw [h e he]
    rfl
  · apply List.filter_eq_nil_iff.mpr
    intro e he
    rw [h e he]
    simp

/-- C2 (code bug): the claim fails on src/server.js.  The `end` and
`error` handlers (src/server.js:195-222) try to fail every pending
request of the disconnected agent, but `handleRequest` stored the entry
as `{ req, res }` with no `clientId` property (src/server.js:140), so
the sweep's test `request.clientId === clientId` compares `undefined`
to a string and never matches: after any sequence of dispatches, an
agent disconnect (clean end or error) removes no pending entry and
writes no 503 to any responder — the pending requests leak and their
callers hang. -/
theorem node_disconnect_resolves_nothing (cs : List String)
    (reqs : List (String × Nat)) (cid : String) :
    (node_socketEnd (node_dispatchAll cs reqs) cid).pending
        = (node_dispatchAll cs reqs).pending ∧
    (node_socketEnd (node_dispatchAll cs reqs) cid).writes
        = (node_dispatchAll cs reqs).writes ∧
    (node_socketError (node_dispatchAll cs reqs) cid).pending
        = (node_dispatchAll cs reqs).pending ∧
    (node_socketError (node_dispatchAll cs reqs) cid).writes
        = (node_dispatchAll cs reqs).writes := by
  have hnone : ∀ e ∈ (node_dispatchAll cs reqs).pending, e.2.clientId = none := by
    apply dispatch_keeps_no_clientId
    intro e he
    simp at he
  obtain ⟨h1, h2⟩ := pending_sweep_noop (node_dispatchAll cs reqs) cid hnone
  refine ⟨h1, ?_, h1, ?_⟩ <;> simp [node_socketEnd, node_socketError, h2]

/-! ## Go broker (src/unnamed/part_002, `ProxyServer`)

The Go variant mints `requestId` from wall-clock nanoseconds, stores
`PendingRequest{req, res, done}` in `pendingRequests`, and correlates by
`requestId` in `handleMessage`.  `handleHTTPRequest` waits on the `done`
channel with a 30-second `time.After` arm. -/

/-- The Go broker state the claims are about: the
`pendingRequests map[string]*PendingRequest` as an association list
`requestId → responder`, the sequence of writes each responder receives,
and the count of `No matching request found` warnings. -/
structure GoState where
  pending : List (String × Nat)
  writes : List (Nat × Nat × String)
  warns : Nat
deriving DecidableEq

/-- Outcome of the Go broker's message callback: either a next state, or
a runtime panic that crashes the process. -/
inductive GoOutcome
  | ok (st : GoState)
  | panicked
deriving DecidableEq

/-- A decoded response message as `handleMessage` sees it after
`json.Unmarshal` into `map[string]interface{}`: the `requestId` key may
be absent or hold a non-string — `none` embeds both, since the
unchecked type assertion `response["requestId"].(string)` treats them
alike. -/
structure GoRespEnvelope where
  requestId : Option String
  statusCode : Nat
  body : String
deriving DecidableEq

/-- `ProxyServer.handleMessage` (src/unnamed/part_002): assert
`response["requestId"].(string)` — a failed assertion panics and brings
the process down; look up the pending entry; if absent, warn
`No matching request found` and return; if present, delete it, then
write headers, status code and the decoded body to the stored
`http.ResponseWriter`. -/
def go_handleMessage (st : GoState) (m : GoRespEnvelope) : GoOutcome :=
  match m.requestId with
  | none => .panicked
  | some rid =>
    match st.pending.find? (fun e => e.1 == rid) with
    | none => .ok { st with warns := st.warns + 1 }
    | some e =>
      .ok { st with
        pending := st.pending.filter (fun x => !(x.1 == rid)),
        writes := st.writes ++ [(e.2, m.statusCode, m.body)] }

/-- The timeout arm of `handleHTTPRequest`'s `select`
(src/unnamed/part_002): after 30 s without a signal on `done`, call
`http.Error(w, "Timeout waiting for client response", 504)` and return.
The handler touches `pendingRequests` in no way here: the entry stays in
the map. -/
def go_timeoutFire (st : GoState) (res : Nat) : GoState :=
  { st with writes := st.writes ++ [(res, 504, "Timeout waiting for client response")] }

/-- C3 (code bug): exactly-once resolution fails on the Go broker.  With
one pending request `("r1", responder 7)`, let the timeout path fire
first (writing 504) and a late `ResponseEnvelope` for `"r1"` arrive
afterwards: because `go_timeoutFire` did not remove the entry, the
response path still finds it and writes the same responder a second
time — the responder receives two writes over the request's lifetime,
so the losing path is not a silent no-op.  (In the Node broker the
timeout path does not exist at all and the disconnect path never fires;
see the C2 theorem.) -/
theorem go_timeout_then_response_double_write :
    go_handleMessage (go_timeoutFire { pending := [("r1", 7)], writes := [], warns := 0 } 7)
        { requestId := some "r1", statusCode := 200, body := "ok" }
      = .ok { pending := [],
              writes := [(7, 504, "Timeout waiting for client response"), (7, 200, "ok")],
              warns := 0 } := by
  decide

/-- C4 (code bug): when the 30-second deadline fires the Go broker does
send 504 to the caller, but it does not remove the pending entry: for
every state and responder, `go_timeoutFire` appends exactly the 504
write and leaves `pendingRequests` untouched, so a late response is not
discarded (see the C3 theorem) — and the Node broker (src/server.js)
sets no timer at all, so there the deadline is enforced for no request. -/
theorem go_timeout_sends_504_but_keeps_entry (st : GoState) (res : Nat) :
    (go_timeoutFire st res).pending = st.pending ∧
    (go_timeoutFire st res).writes
      = st.writes ++ [(res, 504, "Timeout waiting for client response")] := by
  exact ⟨rfl, rfl⟩

/-- C8 (code bug): a `ResponseEnvelope` whose `requestId` is absent or
not a string is not logged-and-discarded by the Go broker — the
unchecked type assertion `response["requestId"].(string)` in
`handleMessage` (src/unnamed/part_002) panics, terminating the broker
process, for every broker state, status code and body. -/
theorem go_missing_requestId_panics (st : GoState) (sc : Nat) (b : String) :
    go_handleMessage st { requestId := none, statusCode := sc, body := b }
      = .panicked := by
  rfl

/-- C5 counterexample: the decoder performs no length validation.  The
4-byte header `[1,0,0,1]` announces `L = 2^24 + 1 = 16777217 >
maxFrameBytes`, yet `consume` (src/Logger.js:125-150 — `Consume` in
src/unnamed/part_002 is identical, and neither source mentions any
maximum) accepts it without any failure: it emits nothing, keeps all
bytes buffered, and on the next chunk keeps accumulating towards the
announced `L` — exactly the "waiting to buffer L bytes" the claim rules
out, with no `FrameTooLarge` and no connection teardown (the embedded
`consume`, like the source, has no failure path at all). -/
theorem consume_no_max_check_cex :
    maxFrameBytes < readBE4 [1, 0, 0, 1, 0] ∧
    consume [] [1, 0, 0, 1, 0] = ([1, 0, 0, 1, 0], []) ∧
    consume [1, 0, 0, 1, 0] [5, 5] = ([1, 0, 0, 1, 0, 5, 5], []) := by
  decide

/-- C5 (corrected): on ingress the decoder reads the 4-byte big-endian
length `L` but never validates it against a maximum — the sources define
no `max_frame_bytes` and no `FrameTooLarge`.  For every buffer state and
chunk, as long as fewer than `L + 4` bytes have arrived, `consume`
simply retains every byte and emits nothing, waiting to buffer `L`
bytes; the connection is not torn down. -/
theorem consume_waits_for_any_length (st data : List Nat)
    (h4 : 4 ≤ (st ++ data).length)
    (hlt : (st ++ data).length < readBE4 (st ++ data) + 4) :
    consume st data = (st ++ data, []) :=
  drain_wait (st ++ data) (Or.inr hlt)

theorem consume_waits_for_any_length_witness :
    consume [] [1, 0, 0, 2, 9] = ([1, 0, 0, 2, 9], []) :=
  consume_waits_for_any_length [] [1, 0, 0, 2, 9] (by decide) (by decide)

/-- The broker's tunnel ingestion: src/server.js creates **one**
`MessageBuffer` in the constructor (src/server.js:17) and every
connected agent socket's `data` handler feeds that same shared buffer
(src/server.js:191-193) — there is no per-connection decoder state.
(The Go broker does the same: one `messageBuffer` in `NewProxyServer`,
fed from every connection's read loop.)  The argument is the sequence of
chunks the sockets deliver, in arrival order, across all connections. -/
def server_sharedIngest (chunks : List (List Nat)) : List Nat × List (List Nat) :=
  feedAll [] chunks

/-- C7 (code bug): per-connection decoder isolation fails.  Agent A's
single frame `produce [1,1] = [0,0,0,2,1,1]` arrives split into chunks
`[0,0,0,2,1]` and `[1]`; agent B's frame `produce [9] = [0,0,0,1,9]`
arrives between them.  Decoded per connection, A's stream yields payload
`[1,1]` and B's yields `[9]`; but the broker's shared buffer
concatenates the interleaved chunks and delivers the single corrupt
payload `[1,0]` — B's length prefix was consumed as A's payload bytes —
which is no payload either connection framed, so neither connection's
payloads are delivered. -/
theorem shared_decoder_corrupts_interleaving :
    server_sharedIngest [[0, 0, 0, 2, 1], [0, 0, 0, 1, 9], [1]]
        = ([0, 0, 1, 9, 1], [[1, 0]]) ∧
    server_sharedIngest [[0, 0, 0, 2, 1], [1]] = ([], [[1, 1]]) ∧
    server_sharedIngest [[0, 0, 0, 1, 9]] = ([], [[9]]) ∧
    produce [1, 1] = [0, 0, 0, 2, 1] ++ [1] ∧
    produce [9] = [0, 0, 0, 1, 9] := by
  decide

/-! ## Agent URL normalization -/

/-- `strings.HasPrefix` / JavaScript `String.prototype.startsWith`,
embedded on the character lists of the strings. -/
def startsWithStr (s p : String) : Bool :=
  p.data.isPrefixOf s.data

/-- Splits a character list at the first occurrence of `"://"`, returning
the part up to and including the separator and the remainder.  Helper
for the origin computation below. -/
def afterScheme : List Char → List Char × List Char
  | [] => ([], [])
  | ':' :: '/' :: '/' :: rest => ([':', '/', '/'], rest)
  | c :: rest =>
    let r := afterScheme rest
    (c :: r.1, r.2)

/-- Modelled from the platform: the scheme-and-authority origin of an
absolute URL (`"http://h:9/x"` ↦ `"http://h:9"`), used to state WHATWG
resolution. -/
def urlOrigin (base : String) : String :=
  let p := afterScheme base.data
  ⟨p.1 ++ p.2.takeWhile (fun c => c ≠ '/')⟩

/-- Modelled from the platform: `new URL(u, base).toString()` as invoked
at src/client.js:63, for the path-absolute references the claim is
about.  Per the WHATWG URL standard (RFC 3986 §5.3 merge rules), a
reference beginning with `/` replaces the base URL's entire path: the
result is the base's origin followed by the reference. -/
def whatwgResolve (u base : String) : String :=
  if startsWithStr u "/" then urlOrigin base ++ u else u

/-- The URL normalization of the Node agent, src/client.js:59-64: a URL
that does not start with `http://` or `https://` is resolved against
`defaultTarget` with `new URL(targetUrl, defaultTarget)`. -/
def node_resolveTarget (u defaultTarget : String) : String :=
  if startsWithStr u "http://" || startsWithStr u "https://" then u
  else whatwgResolve u defaultTarget

/-- The URL normalization of the Go agent,
src/go-reverse-proxy/client.go (`handleMessage`): a URL that does not
start with `http://` or `https://` is prepended with the default target
by plain string concatenation
(`targetURL = c.config.Client.Proxy.DefaultTarget + targetURL`). -/
def go_resolveTarget (u defaultTarget : String) : String :=
  if startsWithStr u "http://" || startsWithStr u "https://" then u
  else defaultTarget ++ u

/-- C9 (code bug): the Go agent does not perform RFC 3986
relative-reference resolution.  On the claim's own example,
`url = "/foo"` with `defaultTarget = "http://h:9/x"`, RFC 3986 (and the
Node agent via `new URL`) yields `http://h:9/foo` — the base's path is
replaced — but the Go agent's string concatenation yields
`http://h:9/x/foo`, the base's path prefixed. -/
theorem go_agent_concatenates_relative_url :
    go_resolveTarget "/foo" "http://h:9/x" = "http://h:9/x/foo" ∧
    go_resolveTarget "/foo" "http://h:9/x" ≠ "http://h:9/foo" ∧
    node_resolveTarget "/foo" "http://h:9/x" = "http://h:9/foo" := by
  decide

/-! ## Agent registry (src/server.js)

`this.clients` is a JavaScript `Set` of sockets: iteration order is
insertion order, `add` appends (sockets are fresh objects, never already
present), `delete` removes the one matching element keeping the order of
the rest.  We embed the set as the insertion-ordered list of the agent
ids minted in `handleSocketConnection` (src/server.js:185-187); since a
set's elements are distinct, deleting the element equals filtering every
equal element out. -/

/-- One registry transition: `this.clients.add(socket)` on connection
(src/server.js:187) or `this.clients.delete(socket)` on `end`/`error`
(src/server.js:204,221). -/
inductive AgentEvent
  | register (i : String)
  | unregister (i : String)
deriving DecidableEq

def applyEvent (st : List String) : AgentEvent → List String
  | .register i => st ++ [i]
  | .unregister i => st.filter (fun x => !(x == i))

/-- The client set after a sequence of connections and disconnections,
in insertion order. -/
def applyEvents (st : List String) (es : List AgentEvent) : List String :=
  es.foldl applyEvent st

/-- `Array.from(this.clients)[0]` (src/server.js:133-134): the agent the
broker dispatches every request to — the first element of the
insertion-ordered client set. -/
def pickClient (st : List String) : Option String :=
  st.head?

/-- The ids in registration order. -/
def registeredOrder : List AgentEvent → List String
  | [] => []
  | .register i :: es => i :: registeredOrder es
  | .unregister _ :: es => registeredOrder es

/-- Whether the trace disconnects agent `i`. -/
def isUnregistered (es : List AgentEvent) (i : String) : Bool :=
  es.any (fun e => e == .unregister i)

/-- Well-formed traces: an id registers at most once (socket ids are
fresh per connection) and only registered ids disconnect.  `seen`
accumulates every id registered so far. -/
def wfEvents : List String → List AgentEvent → Bool
  | _, [] => true
  | seen, .register i :: es => decide (i ∉ seen) && wfEvents (i :: seen) es
  | seen, .unregister i :: es => decide (i ∈ seen) && wfEvents seen es

theorem isUnregistered_reg (j i : String) (es : List AgentEvent) :
    isUnregistered (.register j :: es) i = isUnregistered es i := by
  simp [isUnregistered]

theorem wf_reg_not_seen (es : List AgentEvent) :
    ∀ seen : List String, wfEvents seen es = true →
      ∀ i ∈ registeredOrder es, i ∉ seen := by
  induction es with
  | nil =>
    intro seen _ i hi
    simp [registeredOrder] at hi
  | cons e es ih =>
    cases e with
    | register j =>
      intro seen hwf i hi
      simp only [wfEvents, Bool.and_eq_true, decide_eq_true_eq] at hwf
      obtain ⟨hj, hwf'⟩ := hwf
      simp only [registeredOrder, List.mem_cons] at hi
      rcases hi with rfl | hi
      · exact hj
      · intro hseen
        exact ih (j :: seen) hwf' i hi (List.mem_cons_of_mem j hseen)
    | unregister j =>
      intro seen hwf i hi
      simp only [wfEvents, Bool.and_eq_true, decide_eq_true_eq] at hwf
      exact ih seen hwf.2 i hi

theorem applyEvents_char (es : List AgentEvent) :
    ∀ (st seen : List String), (∀ i ∈ st, i ∈ seen) →
      wfEvents seen es = true →
      applyEvents st es
        = (st ++ registeredOrder es).filter (fun i => !(isUnregistered es i)) := by
  induction es with
  | nil =>
    intro st seen _ _
    simp [applyEvents, registeredOrder, isUnregistered]
  | cons e es ih =>
    cases e with
    | register j =>
      intro st seen hsub hwf
      simp only [wfEvents, Bool.and_eq_true, decide_eq_true_eq] at hwf
      obtain ⟨hj, hwf'⟩ := hwf
      have hsub' : ∀ i ∈ st ++ [j], i ∈ j :: seen := by
        intro i hi
        rcases List.mem_append.mp hi with h | h
        · exact List.mem_cons_of_mem j (hsub i h)
        · simp only [List.mem_singleton] at h
          rw [h]
          exact List.mem_cons_self j seen
      have hIH := ih (st ++ [j]) (j :: seen) hsub' hwf'
      show applyEvents (st ++ [j]) es = _
      rw [hIH]
      have hassoc : st ++ registeredOrder (.register j :: es)
          = (st ++ [j]) ++ registeredOrder es := by
        simp [registeredOrder]
      rw [hassoc]
      apply List.filter_congr
      intro i _
      rw [isUnregistered_reg]
    | unregister j =>
      intro st seen hsub hwf
      simp only [wfEvents, Bool.and_eq_true, decide_eq_true_eq] at hwf
      obtain ⟨hj, hwf'⟩ := hwf
      have hsub' : ∀ i ∈ st.filter (fun x => !(x == j)), i ∈ seen :=
        fun i hi => hsub i (List.mem_of_mem_filter hi)
      have hIH := ih (st.filter (fun x => !(x == j))) seen hsub' hwf'
      show applyEvents (st.filter (fun x => !(x == j))) es = _
      rw [hIH]
      have hro : registeredOrder (.unregister j :: es) = registeredOrder es := rfl
      rw [hro, List.filter_append, List.filter_append, List.filter_filter]
      have hjro : j ∉ registeredOrder es := fun hmem => wf_reg_not_seen es seen hwf' j hmem hj
      congr 1
      · apply List.filter_congr
        intro i _
        by_cases hij : i = j
        · simp [hij, isUnregistered]
        · have hji : ¬ (j = i) := fun h => hij h.symm
          simp only [isUnregistered, List.any_cons]
          have h1 : (i == j) = false := beq_eq_false_iff_ne.mpr hij
          have h2 : (AgentEvent.unregister j == AgentEvent.unregister i) = false :=
            beq_eq_false_iff_ne.mpr (fun h => by cases h; exact hji rfl)
          rw [h1, h2]
          simp
      · apply List.filter_congr
        intro i hi
        have hij : ¬ (i = j) := fun h => hjro (h ▸ hi)
        have hji : ¬ (j = i) := fun h => hij h.symm
        simp [isUnregistered, hij, hji]

/-- C10: agent selection in the Node broker is a deterministic function
of registration order.  For every well-formed trace of agent
connections and disconnections, the client set equals the
registration-ordered list of ids restricted to the still-connected
ones, and the broker's pick (`Array.from(this.clients)[0]`,
src/server.js:133-134) is its head — the earliest-registered
still-connected agent.  Hence an agent registered later receives no
request until every earlier-registered agent has disconnected. -/
theorem node_pick_earliest_registered (es : List AgentEvent)
    (hwf : wfEvents [] es = true) :
    applyEvents [] es
      = (registeredOrder es).filter (fun i => !(isUnregistered es i)) ∧
    pickClient (applyEvents [] es)
      = ((registeredOrder es).filter (fun i => !(isUnregistered es i))).head? := by
  have h := applyEvents_char es [] [] (by simp) hwf
  simp only [List.nil_append] at h
  exact ⟨h, by rw [h]; rfl⟩

theorem node_pick_earliest_registered_witness :
    wfEvents [] [.register "a", .register "b", .unregister "a"] = true ∧
    pickClient (applyEvents [] [.register "a", .register "b", .unregister "a"])
      = some "b" :=
  ⟨by decide,
   by
    have h := (node_pick_earliest_registered
      [.register "a", .register "b", .unregister "a"] (by decide)).2
    rw [h]
    decide⟩
